import Mathlib

/-!
Verification of `scripts/release/update_changelog.py`.

The script promotes the `## [Unreleased]` section of a changelog into a
versioned release section.  Text is modelled as `List Char`; the Python
regular-expression search
`re.search(r"## \[Unreleased\](.*?)(?=\n## \[|\Z)", text, re.DOTALL)`
is embedded as: the match starts at the first occurrence of the literal
substring `## [Unreleased]`, and the lazily captured body extends from the
end of that literal up to (excluding) the first later position at which the
substring `\x0a## [` starts, or to the end of the text when no such
position exists.
-/

namespace UpdateChangelog

/-- The ASCII characters removed by Python's default `str.strip()`.
(Python also strips a handful of non-ASCII Unicode spaces; the changelog
domain here is ASCII, where the two notions agree.) -/
def pyIsSpace (c : Char) : Bool :=
  c = ' ' || c = '\t' || c = '\n' || c = '\r' || c = '\x0b' || c = '\x0c'

/-- Python `s.strip()`: remove leading and trailing whitespace. -/
def stripChars (s : List Char) : List Char :=
  (((s.dropWhile pyIsSpace).reverse.dropWhile pyIsSpace)).reverse

/-- The literal section header matched by the regex: `## [Unreleased]`. -/
def hdr : List Char := "## [Unreleased]".data

/-- The lookahead delimiter `\n## [` that terminates the captured body. -/
def boundaryMark : List Char := "\x0a## [".data

/-- Index of the first occurrence of `pat` as a substring, if any
(the start position chosen by `re.search` for a pattern beginning with a
literal). -/
def findSub (pat : List Char) : List Char → Option Nat
  | [] => if pat.isEmpty then some 0 else none
  | c :: rest =>
    if pat.isPrefixOf (c :: rest) then some 0
    else (findSub pat rest).map (· + 1)

/-- Length of the lazily matched body starting at the given tail: the
distance to the first position where `boundaryMark` starts, or the whole
length when none exists (the `\Z` alternative of the lookahead). -/
def findBoundary : List Char → Nat
  | [] => 0
  | c :: rest => if boundaryMark.isPrefixOf (c :: rest) then 0 else findBoundary rest + 1

/-- A successful regex match: start offset of the header and length of the
captured group. -/
structure MatchInfo where
  start : Nat
  bodyLen : Nat
deriving DecidableEq

/-- `match.end()`: one past the last character of the matched region. -/
def matchEnd (m : MatchInfo) : Nat := m.start + hdr.length + m.bodyLen

/-- The embedded `re.search` for the Unreleased pattern. -/
def searchUnreleased (text : List Char) : Option MatchInfo :=
  match findSub hdr text with
  | none => none
  | some i => some ⟨i, findBoundary (text.drop (i + hdr.length))⟩

/-- `match.group(1)`: the captured body. -/
def matchBody (text : List Char) (m : MatchInfo) : List Char :=
  (text.drop (m.start + hdr.length)).take m.bodyLen

/-- Filesystem model for the optional supplemental file: a map from path to
content for the files that exist. -/
abbrev FS := List Char → Option (List Char)

/-- `load_optional_file`: empty string for an unset path or a missing file,
otherwise the stripped file content. -/
def load_optional_file (path : List Char) (fs : FS) : List Char :=
  if path.isEmpty then []
  else
    match fs path with
    | none => []
    | some content => stripChars content

/-- `release_url = f"https://github.com/{repo}/releases/tag/{version}"`. -/
def release_url (repo version : List Char) : List Char :=
  "https://github.com/".data ++ repo ++ "/releases/tag/".data ++ version

/-- `compare_url = f"https://github.com/{repo}/compare/{base}...{version}"`. -/
def compare_url (repo base version : List Char) : List Char :=
  "https://github.com/".data ++ repo ++ "/compare/".data ++ base ++ "...".data ++ version

/-- `version_header = f"## [{version}]({release_url}) ([diff]({compare_url}))"`. -/
def version_header (version repo base : List Char) : List Char :=
  "## [".data ++ version ++ "](".data ++ release_url repo version
    ++ ") ([diff](".data ++ compare_url repo base version ++ "))".data

/-- Python `sep.join`. -/
def joinSep (sep : List Char) : List (List Char) → List Char
  | [] => []
  | [x] => x
  | x :: y :: xs => x ++ sep ++ joinSep sep (y :: xs)

/-- The body computation: keep the non-empty chunks, join them with a blank
line, strip, and fall back to `- Release <version>` when empty. -/
def computeBody (unreleased_body new_entries version : List Char) : List Char :=
  let chunks := [unreleased_body, new_entries].filter (fun part => !part.isEmpty)
  let body := stripChars (joinSep "\x0a\x0a".data chunks)
  if body.isEmpty then "- Release ".data ++ version else body

/-- `replacement = f"## [Unreleased]\n\n{version_header}\n\n{body}\n"`. -/
def replacementFor (version repo base body : List Char) : List Char :=
  "## [Unreleased]\x0a\x0a".data ++ version_header version repo base
    ++ "\x0a\x0a".data ++ body ++ "\x0a".data

/-- The message of the `RuntimeError` raised when the section is missing. -/
def errMsg : List Char :=
  "CHANGELOG.md is missing the \x27## [Unreleased]\x27 section".data

/-- The whole transformation of `main` on the changelog text, after the
supplemental entries have been loaded: error when the section is missing,
otherwise the rewritten document. -/
def promote (changelog_text version repo base new_entries : List Char) :
    Except (List Char) (List Char) :=
  match searchUnreleased changelog_text with
  | none => .error errMsg
  | some m =>
    let unreleased_body := stripChars (matchBody changelog_text m)
    let body := computeBody unreleased_body new_entries version
    .ok (changelog_text.take m.start ++ replacementFor version repo base body
          ++ changelog_text.drop (matchEnd m))

/-- `main`, with the supplemental file resolved through the filesystem. -/
def runMain (changelog_text version repo base new_entries_path : List Char)
    (fs : FS) : Except (List Char) (List Char) :=
  promote changelog_text version repo base (load_optional_file new_entries_path fs)

/-- Content of the changelog file after `main`: the rewrite on success, the
original text when the error is raised before the write. -/
def fileAfter (changelog_text version repo base new_entries_path : List Char)
    (fs : FS) : List Char :=
  match runMain changelog_text version repo base new_entries_path fs with
  | .ok t => t
  | .error _ => changelog_text

/-- Number of start positions at which `pat` occurs as a substring. -/
def countOcc (pat : List Char) : List Char → Nat
  | [] => 0
  | c :: rest => (if pat.isPrefixOf (c :: rest) then 1 else 0) + countOcc pat rest

/-- `pat` occurs as a substring starting at offset `i`. -/
def occursAt (text pat : List Char) (i : Nat) : Bool :=
  pat.isPrefixOf (text.drop i)

/-- No occurrence of `pat` starts before offset `n`. -/
def noOccBefore (text pat : List Char) (n : Nat) : Bool :=
  (List.range n).all fun i => !occursAt text pat i

/-- Running `main` twice in a row on the same file with the same arguments. -/
def promoteTwice (doc version repo base new_entries : List Char) :
    Except (List Char) (List Char) :=
  match promote doc version repo base new_entries with
  | .ok t => promote t version repo base new_entries
  | .error e => .error e

instance : DecidableEq (Except (List Char) (List Char))
  | .ok x, .ok y =>
    if h : x = y then isTrue (by rw [h]) else isFalse fun hc => h (Except.ok.inj hc)
  | .error x, .error y =>
    if h : x = y then isTrue (by rw [h]) else isFalse fun hc => h (Except.error.inj hc)
  | .ok _, .error _ => isFalse fun hc => Except.noConfusion hc
  | .error _, .ok _ => isFalse fun hc => Except.noConfusion hc

/-- The document produced by a successful promotion at match `m`. -/
def promoted (doc version repo base new_entries : List Char) (m : MatchInfo) :
    List Char :=
  doc.take m.start
    ++ replacementFor version repo base
        (computeBody (stripChars (matchBody doc m)) new_entries version)
    ++ doc.drop (matchEnd m)

/-! ### Helper lemmas about substring search -/

lemma isPrefixOf_append_self (xs ys : List Char) : xs.isPrefixOf (xs ++ ys) = true := by
  induction xs with
  | nil => simp [List.isPrefixOf]
  | cons c t ih => simp [List.isPrefixOf, ih]

lemma length_le_of_isPrefixOf :
    ∀ {xs ys : List Char}, xs.isPrefixOf ys = true → xs.length ≤ ys.length
  | [], _, _ => by simp
  | _ :: _, [], h => by simp [List.isPrefixOf] at h
  | x :: xs, y :: ys, h => by
    simp only [List.isPrefixOf, Bool.and_eq_true, beq_iff_eq] at h
    simpa using length_le_of_isPrefixOf h.2

lemma occursAt_cons (c : Char) (rest pat : List Char) (i : Nat) :
    occursAt (c :: rest) pat (i + 1) = occursAt rest pat i := rfl

lemma findSub_sound (pat : List Char) :
    ∀ (text : List Char) {j : Nat}, findSub pat text = some j →
      occursAt text pat j = true ∧ ∀ i < j, occursAt text pat i = false := by
  intro text
  induction text with
  | nil =>
    intro j h
    by_cases hp : pat.isEmpty
    · simp only [findSub, hp, if_true, Option.some.injEq] at h
      subst h
      refine ⟨?_, by omega⟩
      cases pat with
      | nil => rfl
      | cons c t => simp [List.isEmpty] at hp
    · simp [findSub, hp] at h
  | cons c rest ih =>
    intro j h
    by_cases hp : pat.isPrefixOf (c :: rest) = true
    · simp only [findSub, hp, if_true, Option.some.injEq] at h
      subst h
      exact ⟨hp, by omega⟩
    · simp only [findSub, hp, if_false, Bool.false_eq_true, Option.map_eq_some'] at h
      obtain ⟨j', hj', rfl⟩ := h
      obtain ⟨h1, h2⟩ := ih hj'
      refine ⟨h1, ?_⟩
      intro i hi
      cases i with
      | zero =>
        unfold occursAt
        simp only [List.drop_zero]
        exact Bool.eq_false_iff.mpr hp
      | succ i' =>
        rw [occursAt_cons]
        exact h2 i' (by omega)

lemma findSub_complete (pat : List Char) :
    ∀ (text : List Char) (j : Nat), occursAt text pat j = true →
      (∀ i < j, occursAt text pat i = false) → findSub pat text = some j := by
  intro text
  induction text with
  | nil =>
    intro j hj hmin
    have hpe : pat.isEmpty = true := by
      unfold occursAt at hj
      cases pat with
      | nil => rfl
      | cons c t => simp [List.isPrefixOf] at hj
    have hj0 : j = 0 := by
      by_contra hne
      have := hmin 0 (by omega)
      unfold occursAt at this
      cases pat with
      | nil => simp [List.isPrefixOf] at this
      | cons c t => simp [List.isEmpty] at hpe
    subst hj0
    simp [findSub, hpe]
  | cons c rest ih =>
    intro j hj hmin
    cases j with
    | zero =>
      unfold occursAt at hj
      simp only [List.drop_zero] at hj
      simp [findSub, hj]
    | succ j' =>
      have hp : pat.isPrefixOf (c :: rest) = false := by
        have := hmin 0 (by omega)
        simpa [occursAt] using this
      have hrec : findSub pat rest = some j' := by
        refine ih j' (by rw [← occursAt_cons c]; exact hj) ?_
        intro i hi
        rw [← occursAt_cons c]
        exact hmin (i + 1) (by omega)
      simp [findSub, hp, hrec]

lemma findSub_none_iff_countOcc (pat : List Char) (hp : pat ≠ []) :
    ∀ text : List Char, (findSub pat text = none ↔ countOcc pat text = 0) := by
  have hpe : pat.isEmpty = false := by
    cases pat with
    | nil => exact absurd rfl hp
    | cons c t => rfl
  intro text
  induction text with
  | nil => simp [findSub, countOcc, hpe]
  | cons c rest ih =>
    by_cases hx : pat.isPrefixOf (c :: rest) = true
    · simp [findSub, countOcc, hx]
    · simp only [Bool.not_eq_true] at hx
      simp [findSub, countOcc, hx, ih]

lemma findBoundary_le : ∀ s : List Char, findBoundary s ≤ s.length := by
  intro s
  induction s with
  | nil => simp [findBoundary]
  | cons c rest ih =>
    by_cases hx : boundaryMark.isPrefixOf (c :: rest) = true
    · simp [findBoundary, hx]
    · simp only [Bool.not_eq_true] at hx
      simp only [findBoundary, hx, if_false, Bool.false_eq_true, List.length_cons]
      omega

lemma findBoundary_sound :
    ∀ s : List Char,
      (occursAt s boundaryMark (findBoundary s) = true ∨ findBoundary s = s.length) ∧
        ∀ i < findBoundary s, occursAt s boundaryMark i = false := by
  intro s
  induction s with
  | nil =>
    refine ⟨Or.inr rfl, ?_⟩
    intro i hi
    simp [findBoundary] at hi
  | cons c rest ih =>
    by_cases hx : boundaryMark.isPrefixOf (c :: rest) = true
    · refine ⟨Or.inl ?_, ?_⟩
      · simp [findBoundary, hx, occursAt]
      · simp only [findBoundary, hx, if_true]
        omega
    · simp only [Bool.not_eq_true] at hx
      simp only [findBoundary, hx, if_false, Bool.false_eq_true]
      obtain ⟨ih1, ih2⟩ := ih
      constructor
      · rcases ih1 with h | h
        · exact Or.inl (by rwa [occursAt_cons])
        · exact Or.inr (by simp [h])
      · intro i hi
        cases i with
        | zero => simpa [occursAt] using hx
        | succ i' =>
          rw [occursAt_cons]
          exact ih2 i' (by omega)

lemma findBoundary_complete :
    ∀ (s : List Char) (j : Nat), j ≤ s.length →
      (occursAt s boundaryMark j = true ∨ j = s.length) →
      (∀ i < j, occursAt s boundaryMark i = false) → findBoundary s = j := by
  intro s
  induction s with
  | nil =>
    intro j hj _ _
    simp only [List.length_nil, Nat.le_zero] at hj
    simp [findBoundary, hj]
  | cons c rest ih =>
    intro j hj hocc hmin
    cases j with
    | zero =>
      have hx : boundaryMark.isPrefixOf (c :: rest) = true := by
        rcases hocc with h | h
        · simpa [occursAt] using h
        · simp at h
      simp [findBoundary, hx]
    | succ j' =>
      have hx : boundaryMark.isPrefixOf (c :: rest) = false := by
        have := hmin 0 (by omega)
        simpa [occursAt] using this
      have hrec : findBoundary rest = j' := by
        refine ih j' (by simpa using hj) ?_ ?_
        · rcases hocc with h | h
          · exact Or.inl (by rw [← occursAt_cons c]; exact h)
          · exact Or.inr (by simpa using h)
        · intro i hi
          rw [← occursAt_cons c]
          exact hmin (i + 1) (by omega)
      simp [findBoundary, hx, hrec]

lemma noOccBefore_iff (t p : List Char) (n : Nat) :
    noOccBefore t p n = true ↔ ∀ i < n, occursAt t p i = false := by
  simp [noOccBefore, List.all_eq_true, List.mem_range, Bool.not_eq_true']

/-! ### Helper lemmas about stripping -/

lemma length_dropWhile_si (p : Char → Bool) :
    ∀ l : List Char, (List.dropWhile p l).length ≤ l.length := by
  intro l
  induction l with
  | nil => simp
  | cons c t ih =>
    rw [List.dropWhile_cons]
    by_cases hp : p c = true
    · simp only [hp, if_true, List.length_cons]
      omega
    · simp [hp]

lemma dropWhile_eq_self_of_length (p : Char → Bool) :
    ∀ l : List Char, (List.dropWhile p l).length = l.length → List.dropWhile p l = l := by
  intro l
  induction l with
  | nil => intro _; rfl
  | cons c t _ =>
    intro h
    rw [List.dropWhile_cons] at h ⊢
    by_cases hp : p c = true
    · exfalso
      have := length_dropWhile_si p t
      simp only [hp, if_true, List.length_cons] at h
      omega
    · simp [hp]

lemma stripChars_parts {a : List Char} (h : stripChars a = a) :
    List.dropWhile pyIsSpace a = a ∧
      List.dropWhile pyIsSpace a.reverse = a.reverse := by
  unfold stripChars at h
  have hlen1 := length_dropWhile_si pyIsSpace a
  have hlen2 := length_dropWhile_si pyIsSpace (List.dropWhile pyIsSpace a).reverse
  have hlen : a.length =
      (List.dropWhile pyIsSpace (List.dropWhile pyIsSpace a).reverse).length := by
    conv_lhs => rw [← h]
    simp
  have hu : List.dropWhile pyIsSpace a = a := by
    apply dropWhile_eq_self_of_length
    simp only [List.length_reverse] at hlen2
    omega
  refine ⟨hu, ?_⟩
  rw [hu] at h
  have : List.dropWhile pyIsSpace a.reverse = a.reverse := by
    have := congrArg List.reverse h
    simpa using this
  exact this

lemma head_not_space {c : Char} {t : List Char}
    (h : List.dropWhile pyIsSpace (c :: t) = c :: t) : pyIsSpace c = false := by
  by_cases hp : pyIsSpace c = true
  · exfalso
    rw [List.dropWhile_cons, if_pos hp] at h
    have h1 := length_dropWhile_si pyIsSpace t
    have h2 := congrArg List.length h
    simp only [List.length_cons] at h2
    omega
  · simpa using hp

lemma dropWhile_cons_append {c : Char} {t z : List Char} (h : pyIsSpace c = false) :
    List.dropWhile pyIsSpace ((c :: t) ++ z) = (c :: t) ++ z := by
  simp [List.dropWhile_cons, h]

lemma stripChars_join (a b : List Char) (ha0 : a ≠ []) (ha : stripChars a = a)
    (hb0 : b ≠ []) (hb : stripChars b = b) :
    stripChars (a ++ "\x0a\x0a".data ++ b) = a ++ "\x0a\x0a".data ++ b := by
  obtain ⟨d1a, _⟩ := stripChars_parts ha
  obtain ⟨_, d2b⟩ := stripChars_parts hb
  obtain ⟨c, t, rfl⟩ : ∃ c t, a = c :: t := by
    cases a with
    | nil => exact absurd rfl ha0
    | cons c t => exact ⟨c, t, rfl⟩
  have hc : pyIsSpace c = false := head_not_space d1a
  have hbr : ∃ d s, b.reverse = d :: s := by
    cases hbr : b.reverse with
    | nil => exact absurd (by simpa using congrArg List.reverse hbr) hb0
    | cons d s => exact ⟨d, s, rfl⟩
  obtain ⟨d, s, hds⟩ := hbr
  have hd : pyIsSpace d = false := head_not_space (hds ▸ d2b)
  unfold stripChars
  rw [List.append_assoc, dropWhile_cons_append hc, ← List.append_assoc]
  rw [show ((c :: t) ++ "\x0a\x0a".data ++ b).reverse
        = (d :: s) ++ ("\x0a\x0a".data.reverse ++ (c :: t).reverse) by
      simp [hds.symm, List.reverse_append, List.append_assoc]]
  rw [dropWhile_cons_append hd]
  rw [show (d :: s) ++ ("\x0a\x0a".data.reverse ++ (c :: t).reverse)
        = ((c :: t) ++ "\x0a\x0a".data ++ b).reverse by
      simp [hds.symm, List.reverse_append, List.append_assoc]]
  simp

lemma stripChars_nl2_cons (b : List Char) (_hb0 : b ≠ []) (hb : stripChars b = b) :
    stripChars ('\x0a' :: '\x0a' :: b) = b := by
  obtain ⟨d1, d2⟩ := stripChars_parts hb
  unfold stripChars
  rw [show List.dropWhile pyIsSpace ('\x0a' :: '\x0a' :: b)
        = List.dropWhile pyIsSpace b by
      rw [List.dropWhile_cons, if_pos (by decide), List.dropWhile_cons, if_pos (by decide)]]
  rw [d1, d2]
  simp

lemma lit_append (a b c X : List Char) (h : a ++ b = c) : a ++ (b ++ X) = c ++ X := by
  rw [← List.append_assoc, h]

lemma computeBody_single (b v : List Char) (hb0 : b ≠ []) (hb : stripChars b = b) :
    computeBody b [] v = b := by
  unfold computeBody joinSep
  have hbe : b.isEmpty = false := by
    cases b with
    | nil => exact absurd rfl hb0
    | cons c t => rfl
  simp [hbe, hb]

lemma searchUnreleased_some {text : List Char} {m : MatchInfo}
    (hm : searchUnreleased text = some m) :
    findSub hdr text = some m.start ∧
      m.bodyLen = findBoundary (text.drop (m.start + hdr.length)) := by
  unfold searchUnreleased at hm
  cases hf : findSub hdr text with
  | none => rw [hf] at hm; simp at hm
  | some i =>
    rw [hf] at hm
    simp only [Option.some.injEq] at hm
    subst hm
    exact ⟨rfl, rfl⟩

/-! ### The claims -/

/-- C2: when the document contains no `## [Unreleased]` header, `main`
raises the missing-section error and the file on disk keeps its
pre-invocation content byte for byte. -/
theorem c2_missing_section_no_write (text v r bs path : List Char) (fs : FS)
    (h : countOcc hdr text = 0) :
    runMain text v r bs path fs = .error errMsg ∧
      fileAfter text v r bs path fs = text := by
  have hn : findSub hdr text = none :=
    (findSub_none_iff_countOcc hdr (by decide) text).mpr h
  have hrun : runMain text v r bs path fs = .error errMsg := by
    unfold runMain promote searchUnreleased
    rw [hn]
  refine ⟨hrun, ?_⟩
  unfold fileAfter
  rw [hrun]

theorem c2_missing_section_no_write_witness :
    runMain "# Changelog\n\nNothing yet.\n".data "v1.2.3".data "org/repo".data
        "v1.2.2".data [] (fun _ => none) = .error errMsg ∧
      fileAfter "# Changelog\n\nNothing yet.\n".data "v1.2.3".data "org/repo".data
        "v1.2.2".data [] (fun _ => none) = "# Changelog\n\nNothing yet.\n".data :=
  c2_missing_section_no_write _ _ _ _ _ _ (by decide)

/-- C3, counterexample: a document with two `## [Unreleased]` headers, on
which the promotion nonetheless succeeds, refuting the claim that it
raises an error unless exactly one header exists. -/
theorem c3_two_headers_still_succeeds :
    countOcc hdr "## [Unreleased]\n- a\n## [Unreleased]\n- b\n".data = 2 ∧
      (promote "## [Unreleased]\n- a\n## [Unreleased]\n- b\n".data "v1.2.3".data
          "org/repo".data "v1.2.2".data []).isOk = true := by
  decide

/-- C3 (amended): the promotion fails if and only if the document contains
zero occurrences of `## [Unreleased]`; with one or more occurrences it
succeeds (operating on the first one), and on failure the file is left
unchanged. -/
theorem c3_fails_iff_zero_headers (text v r bs path : List Char) (fs : FS) :
    (runMain text v r bs path fs = .error errMsg ↔ countOcc hdr text = 0) ∧
      (countOcc hdr text = 0 → fileAfter text v r bs path fs = text) := by
  have hiff := findSub_none_iff_countOcc hdr (by decide) text
  have herrOf : countOcc hdr text = 0 → runMain text v r bs path fs = .error errMsg := by
    intro hc
    have hn := hiff.mpr hc
    unfold runMain promote searchUnreleased
    rw [hn]
  constructor
  · constructor
    · intro herr
      rw [← hiff]
      cases hfind : findSub hdr text with
      | none => rfl
      | some i =>
        exfalso
        unfold runMain promote searchUnreleased at herr
        rw [hfind] at herr
        simp at herr
    · exact herrOf
  · intro hc
    unfold fileAfter
    rw [herrOf hc]

theorem c3_fails_iff_zero_headers_witness :
    runMain "no headers here\n".data "v1.2.3".data "org/repo".data "v1.2.2".data []
        (fun _ => none) = .error errMsg :=
  (c3_fails_iff_zero_headers _ _ _ _ _ _).1.mpr (by decide)

/-- C4: when the Unreleased body strips to the empty string and there are
no supplemental entries, the body of the new version section is exactly
`- Release <version>`. -/
theorem c4_empty_body_default (doc v r bs : List Char) (m : MatchInfo)
    (hm : searchUnreleased doc = some m)
    (hs : stripChars (matchBody doc m) = []) :
    promote doc v r bs [] =
      .ok (doc.take m.start
        ++ replacementFor v r bs ("- Release ".data ++ v)
        ++ doc.drop (matchEnd m)) := by
  have hcb : computeBody [] [] v = "- Release ".data ++ v := by
    unfold computeBody joinSep
    simp [stripChars]
  unfold promote
  rw [hm]
  simp only [hs, hcb]

theorem c4_empty_body_default_witness :
    promote "## [Unreleased]\n\n## [v0](u) ([diff](c))\n- old\n".data "v1.2.3".data
        "org/repo".data "v1.2.2".data [] =
      .ok (("## [Unreleased]\n\n## [v0](u) ([diff](c))\n- old\n".data).take 0
        ++ replacementFor "v1.2.3".data "org/repo".data "v1.2.2".data
            ("- Release ".data ++ "v1.2.3".data)
        ++ ("## [Unreleased]\n\n## [v0](u) ([diff](c))\n- old\n".data).drop
            (matchEnd ⟨0, 1⟩)) :=
  c4_empty_body_default _ _ _ _ ⟨0, 1⟩ (by decide) (by decide)

/-- C5: when both the stripped Unreleased body and the stripped
supplemental text are non-empty, the final body is their concatenation
with exactly one blank line between them. -/
theorem c5_join_with_blank_line (a b v : List Char)
    (ha0 : a ≠ []) (ha : stripChars a = a) (hb0 : b ≠ []) (hb : stripChars b = b) :
    computeBody a b v = a ++ "\n\n".data ++ b := by
  have hae : a.isEmpty = false := by
    cases a with
    | nil => exact absurd rfl ha0
    | cons c t => rfl
  have hbe : b.isEmpty = false := by
    cases b with
    | nil => exact absurd rfl hb0
    | cons c t => rfl
  have hjoin : stripChars (a ++ "\n\n".data ++ b) = a ++ "\n\n".data ++ b :=
    stripChars_join a b ha0 ha hb0 hb
  have hne : (a ++ "\n\n".data ++ b).isEmpty = false := by
    cases a with
    | nil => exact absurd rfl ha0
    | cons c t => rfl
  simp only [computeBody]
  rw [show ([a, b].filter fun part => !part.isEmpty) = [a, b] by simp [hae, hbe]]
  rw [show joinSep "\n\n".data [a, b] = a ++ "\n\n".data ++ b from rfl]
  rw [hjoin, hne]
  simp

theorem c5_join_with_blank_line_witness :
    computeBody "- a".data "- b".data "v1.2.3".data
      = "- a".data ++ "\n\n".data ++ "- b".data :=
  c5_join_with_blank_line _ _ _ (by decide) (by decide) (by decide) (by decide)

/-- C6: a supplemental-entries path that is unset or names no existing file
loads as the empty string, and `main` then behaves exactly as with no
supplemental path at all. -/
theorem c6_missing_supplemental (path text v r bs : List Char) (fs : FS)
    (h : path = [] ∨ fs path = none) :
    load_optional_file path fs = [] ∧
      runMain text v r bs path fs = runMain text v r bs [] fs := by
  have hl : load_optional_file path fs = [] := by
    rcases h with rfl | hf
    · rfl
    · unfold load_optional_file
      rw [hf]
      simp
  refine ⟨hl, ?_⟩
  unfold runMain
  rw [hl]
  rfl

theorem c6_missing_supplemental_witness :
    load_optional_file "missing-entries.md".data (fun _ => none) = [] ∧
      runMain "## [Unreleased]\n\n- x\n".data "v1.2.3".data "org/repo".data
          "v1.2.2".data "missing-entries.md".data (fun _ => none)
        = runMain "## [Unreleased]\n\n- x\n".data "v1.2.3".data "org/repo".data
          "v1.2.2".data [] (fun _ => none) :=
  c6_missing_supplemental _ _ _ _ _ _ (Or.inr rfl)

/-- C7: on any document with an Unreleased section the rewrite splices the
replacement block at the exact match boundaries: the prefix before the
match and the suffix after it are preserved byte for byte. -/
theorem c7_splice_preserves_outside (doc v r bs ne : List Char) (m : MatchInfo)
    (hm : searchUnreleased doc = some m) :
    promote doc v r bs ne = .ok (promoted doc v r bs ne m) ∧
      (promoted doc v r bs ne m).take m.start = doc.take m.start ∧
      (promoted doc v r bs ne m).drop
          (m.start + (replacementFor v r bs
            (computeBody (stripChars (matchBody doc m)) ne v)).length)
        = doc.drop (matchEnd m) := by
  have h1 : promote doc v r bs ne = .ok (promoted doc v r bs ne m) := by
    unfold promote promoted
    rw [hm]
  obtain ⟨hfind, _⟩ := searchUnreleased_some hm
  have hocc := (findSub_sound hdr doc hfind).1
  unfold occursAt at hocc
  have hlen := length_le_of_isPrefixOf hocc
  rw [List.length_drop] at hlen
  have hhl : hdr.length = 15 := rfl
  have hsl : m.start ≤ doc.length := by omega
  have htl : (doc.take m.start).length = m.start := by
    rw [List.length_take]
    omega
  refine ⟨h1, ?_, ?_⟩
  · unfold promoted
    rw [List.append_assoc]
    exact List.take_left' htl
  · unfold promoted
    apply List.drop_left'
    rw [List.length_append, htl]

set_option maxRecDepth 8192 in
theorem c7_splice_preserves_outside_witness :
    promote "intro\n## [Unreleased]\n\n- x\n## [v0](u)\nold\n".data "v1.2.3".data
        "org/repo".data "v1.2.2".data []
        = .ok (promoted "intro\n## [Unreleased]\n\n- x\n## [v0](u)\nold\n".data
            "v1.2.3".data "org/repo".data "v1.2.2".data [] ⟨6, 5⟩) ∧
      (promoted "intro\n## [Unreleased]\n\n- x\n## [v0](u)\nold\n".data "v1.2.3".data
          "org/repo".data "v1.2.2".data [] ⟨6, 5⟩).take 6
        = ("intro\n## [Unreleased]\n\n- x\n## [v0](u)\nold\n".data).take 6 ∧
      (promoted "intro\n## [Unreleased]\n\n- x\n## [v0](u)\nold\n".data "v1.2.3".data
          "org/repo".data "v1.2.2".data [] ⟨6, 5⟩).drop
          (6 + (replacementFor "v1.2.3".data "org/repo".data "v1.2.2".data
            (computeBody (stripChars
              (matchBody "intro\n## [Unreleased]\n\n- x\n## [v0](u)\nold\n".data ⟨6, 5⟩))
              [] "v1.2.3".data)).length)
        = ("intro\n## [Unreleased]\n\n- x\n## [v0](u)\nold\n".data).drop
            (matchEnd ⟨6, 5⟩) :=
  c7_splice_preserves_outside _ _ _ _ _ ⟨6, 5⟩ (by decide)

/-- C8: the release-tag and comparison URLs, and the version header built
from them, embed the repo, version and base strings verbatim, with no
escaping or validation of their shape. -/
theorem c8_urls_verbatim (v r bs : List Char) :
    release_url r v = "https://github.com/".data ++ r ++ "/releases/tag/".data ++ v ∧
      compare_url r bs v
        = "https://github.com/".data ++ r ++ "/compare/".data ++ bs ++ "...".data ++ v ∧
      version_header v r bs
        = "## [".data ++ v ++ "](https://github.com/".data ++ r ++ "/releases/tag/".data
            ++ v ++ ") ([diff](https://github.com/".data ++ r ++ "/compare/".data ++ bs
            ++ "...".data ++ v ++ "))".data := by
  refine ⟨rfl, rfl, ?_⟩
  unfold version_header release_url compare_url
  simp only [List.append_assoc]
  rw [lit_append "](".data "https://github.com/".data "](https://github.com/".data _
      (by decide),
    lit_append ") ([diff](".data "https://github.com/".data
      ") ([diff](https://github.com/".data _ (by decide)]

set_option maxRecDepth 100000 in
/-- C9: promotion is not idempotent: on a document with an Unreleased body
`- x`, running the promotion twice stacks a second version section whose
body is the default `- Release v1.2.3`, a different result from running it
once. -/
theorem c9_not_idempotent :
    promoteTwice "## [Unreleased]\n\n- x\n".data "v1.2.3".data "org/repo".data
        "v1.2.2".data []
      = .ok ("## [Unreleased]\n\n".data
          ++ version_header "v1.2.3".data "org/repo".data "v1.2.2".data
          ++ "\n\n- Release v1.2.3\n\n".data
          ++ version_header "v1.2.3".data "org/repo".data "v1.2.2".data
          ++ "\n\n- x\n".data) ∧
      promoteTwice "## [Unreleased]\n\n- x\n".data "v1.2.3".data "org/repo".data
          "v1.2.2".data []
        ≠ promote "## [Unreleased]\n\n- x\n".data "v1.2.3".data "org/repo".data
          "v1.2.2".data [] := by
  decide

/-- C10: the scan is not anchored to line starts: the match begins at the
first occurrence of the substring `## [Unreleased]` anywhere in the text
(no earlier occurrence exists, and the start is at or before any given
occurrence, mid-line ones included), the captured body is delimited by the
first later `\n## [` or the end of the document, and the promotion
succeeds on that match. -/
theorem c10_unanchored_first_occurrence (text v r bs ne : List Char)
    (j : Nat) (m : MatchInfo)
    (hj : occursAt text hdr j = true)
    (hm : searchUnreleased text = some m) :
    occursAt text hdr m.start = true ∧
      m.start ≤ j ∧
      noOccBefore text hdr m.start = true ∧
      (occursAt (text.drop (m.start + hdr.length)) boundaryMark m.bodyLen = true ∨
        m.bodyLen = (text.drop (m.start + hdr.length)).length) ∧
      noOccBefore (text.drop (m.start + hdr.length)) boundaryMark m.bodyLen = true ∧
      (promote text v r bs ne).isOk = true := by
  obtain ⟨hfind, hbody⟩ := searchUnreleased_some hm
  obtain ⟨h1, h2⟩ := findSub_sound hdr text hfind
  obtain ⟨h3, h4⟩ := findBoundary_sound (text.drop (m.start + hdr.length))
  have hle : m.start ≤ j := by
    by_contra hlt
    rw [h2 j (by omega)] at hj
    exact Bool.false_ne_true hj
  refine ⟨h1, hle, (noOccBefore_iff _ _ _).mpr h2, ?_, ?_, ?_⟩
  · rw [hbody]
    exact h3
  · rw [noOccBefore_iff, hbody]
    exact h4
  · unfold promote
    rw [hm]
    rfl

set_option maxRecDepth 8192 in
theorem c10_unanchored_first_occurrence_witness :
    occursAt "intro ## [Unreleased] mid\nbody\n## [v0]\n".data hdr 6 = true ∧
      (6 : Nat) ≤ 6 ∧
      noOccBefore "intro ## [Unreleased] mid\nbody\n## [v0]\n".data hdr 6 = true ∧
      (occursAt (("intro ## [Unreleased] mid\nbody\n## [v0]\n".data).drop
          (6 + hdr.length)) boundaryMark 9 = true ∨
        (9 : Nat) = (("intro ## [Unreleased] mid\nbody\n## [v0]\n".data).drop
          (6 + hdr.length)).length) ∧
      noOccBefore (("intro ## [Unreleased] mid\nbody\n## [v0]\n".data).drop
          (6 + hdr.length)) boundaryMark 9 = true ∧
      (promote "intro ## [Unreleased] mid\nbody\n## [v0]\n".data "v1.2.3".data
          "org/repo".data "v1.2.2".data []).isOk = true :=
  c10_unanchored_first_occurrence _ _ _ _ _ 6 ⟨6, 9⟩ (by decide) (by decide)

set_option maxRecDepth 100000 in
/-- C1: for a document of the form
`pre ++ "## [Unreleased]\n\n" ++ b ++ "\n## [" ++ suffix` — an Unreleased
header with a stripped non-empty body `b` followed by an older section —
where no header occurrence starts inside `pre` and no `\n## [` starts
inside the captured body, promoting with version `v1.2.3`, repo
`org/repo`, base `v1.2.2` and no supplemental file replaces the matched
region by exactly
`## [Unreleased]\n\n## [v1.2.3](https://github.com/org/repo/releases/tag/v1.2.3) ([diff](https://github.com/org/repo/compare/v1.2.2...v1.2.3))\n\n` ++ `b` ++ `\n`,
and all text following the matched region is unchanged. -/
theorem c1_new_section_exact_text (pre b suffix : List Char)
    (hb0 : b ≠ []) (hb : stripChars b = b)
    (hpre : ∀ i < pre.length,
      occursAt (pre ++ (hdr ++ ("\n\n".data ++ (b ++ ("\n## [".data ++ suffix))))) hdr i
        = false)
    (hbody : ∀ k < b.length + 2,
      occursAt ("\n\n".data ++ (b ++ ("\n## [".data ++ suffix))) boundaryMark k
        = false) :
    promote (pre ++ (hdr ++ ("\n\n".data ++ (b ++ ("\n## [".data ++ suffix)))))
        "v1.2.3".data "org/repo".data "v1.2.2".data []
      = .ok (pre
          ++ ("## [Unreleased]\n\n## [v1.2.3](https://github.com/org/repo/releases/tag/v1.2.3) ([diff](https://github.com/org/repo/compare/v1.2.2...v1.2.3))\n\n".data
            ++ (b ++ ("\n".data ++ ("\n## [".data ++ suffix))))) := by
  have hbm : ("\n## [".data : List Char) = boundaryMark := rfl
  rw [hbm] at hpre hbody ⊢
  set doc := pre ++ (hdr ++ ("\n\n".data ++ (b ++ (boundaryMark ++ suffix)))) with hdocdef
  set tail := "\n\n".data ++ (b ++ (boundaryMark ++ suffix)) with htaildef
  have htail2 : tail = ("\n\n".data ++ b) ++ (boundaryMark ++ suffix) := by
    rw [htaildef, List.append_assoc]
  have hnb : ("\n\n".data ++ b).length = b.length + 2 := by
    simp [List.length_append]
  have htaildrop : doc.drop (pre.length + hdr.length) = tail := by
    rw [hdocdef, show pre ++ (hdr ++ tail) = (pre ++ hdr) ++ tail by
      rw [List.append_assoc]]
    exact List.drop_left' (by simp)
  have hstart : findSub hdr doc = some pre.length := by
    apply findSub_complete hdr doc pre.length _ hpre
    unfold occursAt
    rw [hdocdef, List.drop_left]
    exact isPrefixOf_append_self hdr _
  have hfb : findBoundary tail = b.length + 2 := by
    apply findBoundary_complete tail (b.length + 2) _ _ hbody
    · rw [htail2]
      simp [List.length_append]
    · left
      unfold occursAt
      rw [htail2, List.drop_left' hnb]
      exact isPrefixOf_append_self boundaryMark suffix
  have hm : searchUnreleased doc = some ⟨pre.length, b.length + 2⟩ := by
    unfold searchUnreleased
    rw [hstart]
    show some (MatchInfo.mk pre.length (findBoundary (List.drop (pre.length + hdr.length) doc)))
      = some (MatchInfo.mk pre.length (b.length + 2))
    rw [htaildrop, hfb]
  have hmb : stripChars (matchBody doc ⟨pre.length, b.length + 2⟩) = b := by
    unfold matchBody
    rw [show (⟨pre.length, b.length + 2⟩ : MatchInfo).start = pre.length from rfl,
      show (⟨pre.length, b.length + 2⟩ : MatchInfo).bodyLen = b.length + 2 from rfl,
      htaildrop, htail2, List.take_left' hnb]
    exact stripChars_nl2_cons b hb0 hb
  have hcb : computeBody b [] "v1.2.3".data = b := computeBody_single b _ hb0 hb
  have hlit : ("## [Unreleased]\n\n".data
        ++ version_header "v1.2.3".data "org/repo".data "v1.2.2".data
        ++ "\n\n".data : List Char)
      = "## [Unreleased]\n\n## [v1.2.3](https://github.com/org/repo/releases/tag/v1.2.3) ([diff](https://github.com/org/repo/compare/v1.2.2...v1.2.3))\n\n".data := by
    decide
  have hrep : replacementFor "v1.2.3".data "org/repo".data "v1.2.2".data b
      = "## [Unreleased]\n\n## [v1.2.3](https://github.com/org/repo/releases/tag/v1.2.3) ([diff](https://github.com/org/repo/compare/v1.2.2...v1.2.3))\n\n".data
        ++ b ++ "\n".data := by
    unfold replacementFor
    rw [hlit]
  have hdrop2 : doc.drop (matchEnd ⟨pre.length, b.length + 2⟩)
      = boundaryMark ++ suffix := by
    rw [hdocdef, show pre ++ (hdr ++ ("\n\n".data ++ (b ++ (boundaryMark ++ suffix))))
        = ((pre ++ hdr) ++ ("\n\n".data ++ b)) ++ (boundaryMark ++ suffix) by
      simp [List.append_assoc]]
    apply List.drop_left'
    simp [matchEnd, List.length_append]
    omega
  have htake : doc.take pre.length = pre := by
    rw [hdocdef]
    exact List.take_left' rfl
  unfold promote
  rw [hm]
  simp only [hmb, hcb, hrep, hdrop2, htake]
  simp [List.append_assoc]

set_option maxRecDepth 100000 in
theorem c1_new_section_exact_text_witness :
    promote ("# Changelog\n\n".data
        ++ (hdr ++ ("\n\n".data ++ ("foo".data
          ++ ("\n## [".data ++ "v0.1.0](u) ([diff](c))\n\n- old\n".data)))))
        "v1.2.3".data "org/repo".data "v1.2.2".data []
      = .ok ("# Changelog\n\n".data
          ++ ("## [Unreleased]\n\n## [v1.2.3](https://github.com/org/repo/releases/tag/v1.2.3) ([diff](https://github.com/org/repo/compare/v1.2.2...v1.2.3))\n\n".data
            ++ ("foo".data ++ ("\n".data
              ++ ("\n## [".data ++ "v0.1.0](u) ([diff](c))\n\n- old\n".data))))) :=
  c1_new_section_exact_text "# Changelog\n\n".data "foo".data
    "v0.1.0](u) ([diff](c))\n\n- old\n".data
    (by decide) (by decide) (by decide) (by decide)

end UpdateChangelog
